import Mathlib

/-!
Shallow embedding of the Pocket Notes entity store (src/App.js).

The source is a React component; the core logic consists of pure helper
functions (`getInitials`), event handlers that compute the next collection
states (`handleCreateGroup`, `handleAddNote`), derived views
(`currentGroup`, `currentNotes`), lazy-initialized loads from
localStorage, and JSON write-through persistence.  Strings are modelled
as Lean `String` (a list of characters); the ASCII fragment of the
JavaScript string operations (`trim`, `split(/\s+/)`, `toLowerCase`,
`toUpperCase`, `charAt`) is embedded explicitly below.
-/

namespace PocketNotes

/-- JavaScript whitespace (ASCII fragment): the characters recognized by
`String.prototype.trim` and the regexp class `\s` that can occur in the
strings this app manipulates. -/
def isWS (c : Char) : Bool :=
  c == ' ' || c == '\t' || c == '\n' || c == '\r' || c == '\x0b' || c == '\x0c'

/-- Drop leading and trailing whitespace from a character list. -/
def trimChars (cs : List Char) : List Char :=
  ((cs.dropWhile isWS).reverse.dropWhile isWS).reverse

/-- Embedding of `s.trim()`. -/
def jsTrim (s : String) : String :=
  ⟨trimChars s.data⟩

/-- Worker for `s.split(/\s+/)`: splits at maximal non-empty whitespace
runs.  `skipping` records that the previous character belonged to a
whitespace run whose field has already been emitted; a leading or a
trailing run contributes an empty field, exactly as the JavaScript
regexp split does. -/
def splitWSGo : Bool → List Char → List Char → List (List Char)
  | _, [], cur => [cur.reverse]
  | skipping, c :: rest, cur =>
    if isWS c then
      if skipping then splitWSGo true rest cur
      else cur.reverse :: splitWSGo true rest []
    else splitWSGo false rest (c :: cur)

/-- Embedding of `s.split(/\s+/)`. -/
def jsSplitWS (s : String) : List String :=
  (splitWSGo false s.data []).map (fun cs => ⟨cs⟩)

/-- Embedding of `s.toLowerCase()` (ASCII fragment). -/
def jsToLower (s : String) : String :=
  ⟨s.data.map Char.toLower⟩

/-- Embedding of `s.toUpperCase()` (ASCII fragment). -/
def jsToUpper (s : String) : String :=
  ⟨s.data.map Char.toUpper⟩

/-- Embedding of `s.charAt(0)`: the first character as a one-character
string, or `""` when `s` is empty. -/
def charAt0 (s : String) : String :=
  match s.data with
  | [] => ""
  | c :: _ => ⟨[c]⟩

/-- src/App.js `getInitials`: trim the name, split it into words, and
take the uppercased first letter of the first word (single word) or of
the first two words (several words).  `if (!name) return ""` is the
guard for the empty string, the only falsy string. -/
def getInitials (name : String) : String :=
  if name = "" then ""
  else
    match jsSplitWS (jsTrim name) with
    | [w] => jsToUpper (charAt0 w)
    | w0 :: w1 :: _ => jsToUpper (charAt0 w0 ++ charAt0 w1)
    | [] => ""

/-- The fixed color palette `GROUP_COLORS` of src/App.js. -/
def GROUP_COLORS : List String :=
  ["#B38BFA", "#FF79F2", "#43E6FC", "#F19576", "#0047FF", "#6691FF"]

/-- A Group record as built by `handleCreateGroup` and persisted under
`"pocketGroups"`. -/
structure Group where
  id : String
  name : String
  color : String
  initials : String
deriving DecidableEq

/-- A Note record as built by `handleAddNote` and persisted under
`"pocketNotes"`.  `groupId` is `selectedGroupId` at creation time, which
is `null` (`none`) when no group is selected. -/
structure Note where
  id : String
  groupId : Option String
  content : String
  date : String
  time : String
deriving DecidableEq

/-- The part of the component state owned by the entity store: the two
collections plus the selection cursor. -/
structure AppState where
  groups : List Group
  notes : List Note
  selectedGroupId : Option String
deriving DecidableEq

/-- Outcome of `handleCreateGroup`: the silent empty-name return, the
duplicate-name alert (abort with no state change), or the created
group. -/
inductive CreateGroupResult where
  | emptyNameNoop
  | duplicateNameError
  | created (g : Group)
deriving DecidableEq

/-- src/App.js `handleCreateGroup`: rejects names that trim to empty,
aborts with an alert on a case-insensitive duplicate (comparing stored
names against the trimmed candidate), otherwise appends
`{id, name: trimmed, color, initials}` to the group collection.  The
freshly allocated id (`Date.now().toString()`) is passed in as
`newIdVal`. -/
def handleCreateGroup (s : AppState) (groupName selectedColor newIdVal : String) :
    CreateGroupResult × AppState :=
  if jsTrim groupName = "" then (.emptyNameNoop, s)
  else if s.groups.any (fun g => jsToLower g.name == jsToLower (jsTrim groupName)) then
    (.duplicateNameError, s)
  else
    let newGroup : Group :=
      { id := newIdVal
        name := jsTrim groupName
        color := selectedColor
        initials := getInitials groupName }
    (.created newGroup, { s with groups := s.groups ++ [newGroup] })

/-- src/App.js `handleAddNote`: returns unchanged state when the text
trims to empty; otherwise appends `{id, groupId: selectedGroupId,
content: noteText, date, time}` (content stored verbatim, not trimmed)
to the note collection.  The id and the formatted date/time snapshots of
the creation instant are passed in. -/
def handleAddNote (s : AppState) (noteText newIdVal dateStr timeStr : String) : AppState :=
  if jsTrim noteText = "" then s
  else
    let newNote : Note :=
      { id := newIdVal
        groupId := s.selectedGroupId
        content := noteText
        date := dateStr
        time := timeStr }
    { s with notes := s.notes ++ [newNote] }

/-- src/App.js `currentGroup`: `groups.find(g => g.id === selectedGroupId)`.
A string id never compares `===`-equal to `null`, hence the `some`. -/
def currentGroup (s : AppState) : Option Group :=
  s.groups.find? (fun g => some g.id == s.selectedGroupId)

/-- src/App.js `currentNotes`: `notes.filter(n => n.groupId === selectedGroupId)`,
the `listNotesFor` projection. -/
def currentNotes (s : AppState) : List Note :=
  s.notes.filter (fun n => n.groupId == s.selectedGroupId)

/-- The decimal digit characters used by `Number.prototype.toString()`
(radix 10).  Only arguments below 10 occur. -/
def digitChar : Nat → Char
  | 0 => '0'
  | 1 => '1'
  | 2 => '2'
  | 3 => '3'
  | 4 => '4'
  | 5 => '5'
  | 6 => '6'
  | 7 => '7'
  | 8 => '8'
  | _ => '9'

/-- Fuel-driven worker producing the decimal digits of `n`, most
significant first.  Any `fuel > n` is enough. -/
def natDigitsGo : Nat → Nat → List Char
  | 0, _ => []
  | fuel + 1, n =>
    if n < 10 then [digitChar n]
    else natDigitsGo fuel (n / 10) ++ [digitChar (n % 10)]

/-- Decimal digit string of `n`, as produced by `n.toString()` on a
non-negative number. -/
def natDigits (n : Nat) : List Char :=
  natDigitsGo (n + 1) n

/-- src/App.js id allocation: `Date.now().toString()`, as a function of
the observed clock instant `now` (milliseconds since the epoch). -/
def newId (now : Nat) : String :=
  ⟨natDigits now⟩

/-- The ids issued by a sequence of calls to the id generator, one call
per observed clock instant in `ts`. -/
def issuedIds (ts : List Nat) : List String :=
  ts.map newId

/-- Numeric value of a decimal digit character. -/
def digitVal (c : Char) : Nat :=
  c.toNat - 48

/-- Value of a most-significant-first decimal digit list. -/
def digitsVal (cs : List Char) : Nat :=
  cs.foldl (fun a c => a * 10 + digitVal c) 0

/-- JSON values in the fragment this app stores: the persisted payloads
are arrays of flat objects whose fields are strings, except `groupId`
which may be `null`. -/
inductive JVal where
  | null : JVal
  | str (s : String) : JVal
  | arr (elems : List JVal) : JVal
  | obj (members : List (String × JVal)) : JVal

/-- JSON object shape of a Group record, in the field insertion order of
`handleCreateGroup`; `JSON.stringify` preserves that order. -/
def encodeGroup (g : Group) : JVal :=
  .obj [("id", .str g.id), ("name", .str g.name),
        ("color", .str g.color), ("initials", .str g.initials)]

/-- JSON object shape of a Note record, in the field insertion order of
`handleAddNote`; a `null` selection is stored as JSON `null`. -/
def encodeNote (n : Note) : JVal :=
  .obj [("id", .str n.id),
        ("groupId", match n.groupId with | some gid => .str gid | none => .null),
        ("content", .str n.content), ("date", .str n.date), ("time", .str n.time)]

/-- The array serialized under `"pocketGroups"`. -/
def encodeGroups (gs : List Group) : JVal :=
  .arr (gs.map encodeGroup)

/-- The array serialized under `"pocketNotes"`. -/
def encodeNotes (ns : List Note) : JVal :=
  .arr (ns.map encodeNote)

/-- Field access on a parsed JSON object (first binding wins, as in a
JavaScript object literal). -/
def jLookup (ms : List (String × JVal)) (k : String) : Option JVal :=
  (ms.find? (fun m => m.1 == k)).map (fun m => m.2)

/-- Read a parsed JSON value as a string field. -/
def asStr : JVal → Option String
  | .str s => some s
  | _ => none

/-- Read a parsed JSON value as a nullable string field (`groupId`). -/
def asOptStr : JVal → Option (Option String)
  | .str s => some (some s)
  | .null => some none
  | _ => none

/-- Interpret a parsed JSON object as a Group record, reading the fields
the application reads. -/
def decodeGroup (v : JVal) : Option Group :=
  match v with
  | .obj ms =>
    match jLookup ms "id" >>= asStr, jLookup ms "name" >>= asStr,
          jLookup ms "color" >>= asStr, jLookup ms "initials" >>= asStr with
    | some i, some nm, some co, some ini => some ⟨i, nm, co, ini⟩
    | _, _, _, _ => none
  | _ => none

/-- Interpret a parsed JSON object as a Note record. -/
def decodeNote (v : JVal) : Option Note :=
  match v with
  | .obj ms =>
    match jLookup ms "id" >>= asStr, jLookup ms "groupId" >>= asOptStr,
          jLookup ms "content" >>= asStr, jLookup ms "date" >>= asStr,
          jLookup ms "time" >>= asStr with
    | some i, some gid, some co, some da, some ti => some ⟨i, gid, co, da, ti⟩
    | _, _, _, _, _ => none
  | _ => none

/-- Interpret a parsed JSON array as the Group collection. -/
def decodeGroups (v : JVal) : Option (List Group) :=
  match v with
  | .arr es => es.mapM decodeGroup
  | _ => none

/-- Interpret a parsed JSON array as the Note collection. -/
def decodeNotes (v : JVal) : Option (List Note) :=
  match v with
  | .arr es => es.mapM decodeNote
  | _ => none

/-- Lowercase hexadecimal digits, as `JSON.stringify` emits them in
`\u00XX` escapes. -/
def hexDigit : Nat → Char
  | 0 => '0'
  | 1 => '1'
  | 2 => '2'
  | 3 => '3'
  | 4 => '4'
  | 5 => '5'
  | 6 => '6'
  | 7 => '7'
  | 8 => '8'
  | 9 => '9'
  | 10 => 'a'
  | 11 => 'b'
  | 12 => 'c'
  | 13 => 'd'
  | 14 => 'e'
  | _ => 'f'

/-- The escaping `JSON.stringify` applies inside string literals: quote
and backslash, the named control escapes, `\u00XX` for the remaining
control characters, and every other character verbatim. -/
def escapeChar (c : Char) : List Char :=
  if c == '"' then ['\\', '"']
  else if c == '\\' then ['\\', '\\']
  else if c == '\x08' then ['\\', 'b']
  else if c == '\t' then ['\\', 't']
  else if c == '\n' then ['\\', 'n']
  else if c == '\x0c' then ['\\', 'f']
  else if c == '\r' then ['\\', 'r']
  else if c.toNat < 32 then
    ['\\', 'u', '0', '0', hexDigit (c.toNat / 16), hexDigit (c.toNat % 16)]
  else [c]

/-- Escape a whole character sequence. -/
def escapeChars : List Char → List Char
  | [] => []
  | c :: rest => escapeChar c ++ escapeChars rest

/-- A JSON string literal: quote, escaped body, quote. -/
def renderString (s : String) : List Char :=
  '"' :: (escapeChars s.data ++ ['"'])

mutual

/-- Character-exact output of `JSON.stringify` on the stored fragment
(no whitespace, fields in order). -/
def render : JVal → List Char
  | .null => ['n', 'u', 'l', 'l']
  | .str s => renderString s
  | .arr [] => ['[', ']']
  | .arr (e :: es) => '[' :: (render e ++ (renderElemsTail es ++ [']']))
  | .obj [] => ['\x7b', '\x7d']
  | .obj ((k, v) :: ms) =>
    '\x7b' :: (renderString k ++ (':' :: (render v ++ (renderMembersTail ms ++ ['\x7d']))))

/-- `,elem` repetitions after the first array element. -/
def renderElemsTail : List JVal → List Char
  | [] => []
  | e :: es => ',' :: (render e ++ renderElemsTail es)

/-- `,"key":value` repetitions after the first object member. -/
def renderMembersTail : List (String × JVal) → List Char
  | [] => []
  | (k, v) :: ms => ',' :: (renderString k ++ (':' :: (render v ++ renderMembersTail ms)))

end

/-- `JSON.stringify` as a String-valued function. -/
def stringify (v : JVal) : String :=
  ⟨render v⟩

/-- Numeric value of a hexadecimal digit character. -/
def hexVal (c : Char) : Option Nat :=
  if c == '0' then some 0
  else if c == '1' then some 1
  else if c == '2' then some 2
  else if c == '3' then some 3
  else if c == '4' then some 4
  else if c == '5' then some 5
  else if c == '6' then some 6
  else if c == '7' then some 7
  else if c == '8' then some 8
  else if c == '9' then some 9
  else if c == 'a' then some 10
  else if c == 'b' then some 11
  else if c == 'c' then some 12
  else if c == 'd' then some 13
  else if c == 'e' then some 14
  else if c == 'f' then some 15
  else none

mutual

/-- JSON string-literal body reader: consumes up to the closing quote,
undoing the escapes `JSON.stringify` can emit; returns the decoded
characters and the remainder. -/
def parseStringBody : List Char → Option (List Char × List Char)
  | [] => none
  | c :: rest =>
    if c == '"' then some ([], rest)
    else if c == '\\' then parseEscape rest
    else (parseStringBody rest).map (fun r => (c :: r.1, r.2))

/-- Decodes one escape sequence (the part after the backslash) and then
continues with the string body. -/
def parseEscape : List Char → Option (List Char × List Char)
  | '"' :: rest => (parseStringBody rest).map (fun r => ('"' :: r.1, r.2))
  | '\\' :: rest => (parseStringBody rest).map (fun r => ('\\' :: r.1, r.2))
  | 'b' :: rest => (parseStringBody rest).map (fun r => ('\x08' :: r.1, r.2))
  | 't' :: rest => (parseStringBody rest).map (fun r => ('\t' :: r.1, r.2))
  | 'n' :: rest => (parseStringBody rest).map (fun r => ('\n' :: r.1, r.2))
  | 'f' :: rest => (parseStringBody rest).map (fun r => ('\x0c' :: r.1, r.2))
  | 'r' :: rest => (parseStringBody rest).map (fun r => ('\r' :: r.1, r.2))
  | 'u' :: h1 :: h2 :: h3 :: h4 :: rest =>
    match hexVal h1, hexVal h2, hexVal h3, hexVal h4 with
    | some a, some b, some c3, some d =>
      (parseStringBody rest).map
        (fun r => (Char.ofNat (((a * 16 + b) * 16 + c3) * 16 + d) :: r.1, r.2))
    | _, _, _, _ => none
  | _ => none

end

mutual

/-- Fuel-driven recursive-descent parser for the JSON fragment the app
stores (the model of `JSON.parse` on those payloads); any fuel of at
least `needV` of the value suffices. -/
def parseVal : Nat → List Char → Option (JVal × List Char)
  | 0, _ => none
  | fuel + 1, cs =>
    match cs with
    | 'n' :: 'u' :: 'l' :: 'l' :: rest => some (.null, rest)
    | '"' :: rest =>
      match parseStringBody rest with
      | some (body, r) => some (.str ⟨body⟩, r)
      | none => none
    | '[' :: ']' :: rest => some (.arr [], rest)
    | '[' :: rest =>
      match parseElems fuel rest with
      | some (es, r) => some (.arr es, r)
      | none => none
    | '\x7b' :: '\x7d' :: rest => some (.obj [], rest)
    | '\x7b' :: rest =>
      match parseMembers fuel rest with
      | some (ms, r) => some (.obj ms, r)
      | none => none
    | _ => none

/-- Parses `elem (, elem)* ]` inside a non-empty array. -/
def parseElems : Nat → List Char → Option (List JVal × List Char)
  | 0, _ => none
  | fuel + 1, cs =>
    match parseVal fuel cs with
    | some (v, ',' :: r) =>
      match parseElems fuel r with
      | some (es, r2) => some (v :: es, r2)
      | none => none
    | some (v, ']' :: r) => some ([v], r)
    | _ => none

/-- Member sequence reader inside a non-empty object: a quoted key, a
colon, a value, then either a comma and more members or the closing
right brace. -/
def parseMembers : Nat → List Char → Option (List (String × JVal) × List Char)
  | 0, _ => none
  | fuel + 1, cs =>
    match cs with
    | '"' :: rest =>
      match parseStringBody rest with
      | some (k, ':' :: r1) =>
        match parseVal fuel r1 with
        | some (v, ',' :: r2) =>
          match parseMembers fuel r2 with
          | some (ms, r3) => some ((⟨k⟩, v) :: ms, r3)
          | none => none
        | some (v, '\x7d' :: r2) => some ([(⟨k⟩, v)], r2)
        | _ => none
      | _ => none
    | _ => none

end

/-- The model of `JSON.parse`: run the fuelled parser with enough fuel
for any payload of this length and require full consumption. -/
def JSONparse (s : String) : Option JVal :=
  match parseVal (s.data.length + 1) s.data with
  | some (v, []) => some v
  | _ => none

/-- `localStorage.setItem("pocketGroups", JSON.stringify(groups))`:
the string written through on every change to the group collection. -/
def saveGroups (gs : List Group) : String :=
  stringify (encodeGroups gs)

/-- `localStorage.setItem("pocketNotes", JSON.stringify(notes))`. -/
def saveNotes (ns : List Note) : String :=
  stringify (encodeNotes ns)

/-- The lazy initializer of the `groups` state:
`saved ? JSON.parse(saved) : []` on `localStorage.getItem("pocketGroups")`,
the parsed array being interpreted as the Group collection. -/
def loadGroups (saved : Option String) : Option (List Group) :=
  match saved with
  | none => some []
  | some s => (JSONparse s).bind decodeGroups

/-- The lazy initializer of the `notes` state. -/
def loadNotes (saved : Option String) : Option (List Note) :=
  match saved with
  | none => some []
  | some s => (JSONparse s).bind decodeNotes

/-- The two durable key-value slots. -/
structure StorageState where
  pocketGroups : Option String
  pocketNotes : Option String

/-- The Group collection at startup, as the lazy `useState` initializer
computes it from the `"pocketGroups"` slot. -/
def initialGroups (st : StorageState) : Option (List Group) :=
  loadGroups st.pocketGroups

/-- The Note collection at startup, from the `"pocketNotes"` slot. -/
def initialNotes (st : StorageState) : Option (List Note) :=
  loadNotes st.pocketNotes

mutual

/-- Fuel requirement of the parser on a JSON value: `parseVal` succeeds
on a rendered value given at least this much fuel. -/
def needV : JVal → Nat
  | .null => 1
  | .str _ => 1
  | .arr [] => 1
  | .arr (e :: es) => 1 + needList (e :: es)
  | .obj [] => 1
  | .obj (m :: ms) => 1 + needMList (m :: ms)

def needList : List JVal → Nat
  | [] => 0
  | e :: es => 1 + max (needV e) (needList es)

def needMList : List (String × JVal) → Nat
  | [] => 0
  | (_, v) :: ms => 1 + max (needV v) (needMList ms)

end
/-! ### Character-level facts about the ASCII case maps -/

theorem digitVal_digitChar (d : Nat) (h : d < 10) : digitVal (digitChar d) = d := by
  interval_cases d <;> rfl

theorem digitsVal_append (l : List Char) (c : Char) :
    digitsVal (l ++ [c]) = digitsVal l * 10 + digitVal c := by
  simp [digitsVal, List.foldl_append]

theorem digitsVal_natDigitsGo : ∀ fuel n, n < fuel → digitsVal (natDigitsGo fuel n) = n := by
  intro fuel
  induction fuel with
  | zero => intro n h; omega
  | succ f ih =>
    intro n h
    rw [natDigitsGo]
    split
    · rename_i h10
      show digitsVal [digitChar n] = n
      simp [digitsVal, digitVal_digitChar n h10]
    · rename_i h10
      have hpos : 10 ≤ n := by omega
      have hlt : n / 10 < f := by omega
      rw [digitsVal_append, ih (n / 10) hlt, digitVal_digitChar (n % 10) (by omega)]
      omega

theorem digitsVal_natDigits (n : Nat) : digitsVal (natDigits n) = n :=
  digitsVal_natDigitsGo (n + 1) n (Nat.lt_succ_self n)

theorem newId_injective : Function.Injective newId := by
  intro a b h
  have hdata : natDigits a = natDigits b := congrArg String.data h
  have := congrArg digitsVal hdata
  simpa [digitsVal_natDigits] using this

example : newId 1700000000000 = "1700000000000" := by decide

theorem char_toNat_ofNat (n : Nat) (h : n.isValidChar) : (Char.ofNat n).toNat = n := by
  rw [Char.ofNat, dif_pos h]
  rfl

theorem char_eq_of_toNat_eq {c d : Char} (h : c.toNat = d.toNat) : c = d :=
  calc c = Char.ofNat c.toNat := (Char.ofNat_toNat c).symm
    _ = Char.ofNat d.toNat := by rw [h]
    _ = d := Char.ofNat_toNat d

theorem char_toUpper_toNat (c : Char) :
    c.toUpper.toNat = if 97 ≤ c.toNat ∧ c.toNat ≤ 122 then c.toNat - 32 else c.toNat := by
  rw [Char.toUpper]
  split
  · rename_i h
    exact char_toNat_ofNat (c.toNat - 32) (Or.inl (by omega))
  · rfl

theorem char_toLower_toUpper (c : Char) : c.toUpper.toLower = c.toLower := by
  have hN := char_toUpper_toNat c
  by_cases h : 97 ≤ c.toNat ∧ c.toNat ≤ 122
  · rw [if_pos h] at hN
    simp only [Char.toLower]
    rw [if_pos (by omega : c.toUpper.toNat ≥ 65 ∧ c.toUpper.toNat ≤ 90),
        if_neg (by omega : ¬(c.toNat ≥ 65 ∧ c.toNat ≤ 90))]
    rw [hN]
    have h32 : c.toNat - 32 + 32 = c.toNat := by omega
    rw [h32, Char.ofNat_toNat]
  · rw [if_neg h] at hN
    rw [char_eq_of_toNat_eq hN]

theorem isWS_iff (c : Char) :
    isWS c = true ↔
      (c.toNat = 32 ∨ c.toNat = 9 ∨ c.toNat = 10 ∨ c.toNat = 13 ∨ c.toNat = 11 ∨ c.toNat = 12) := by
  simp only [isWS, Bool.or_eq_true, beq_iff_eq]
  constructor
  · rintro (((((h | h) | h) | h) | h) | h) <;> subst h <;> decide
  · rintro (h | h | h | h | h | h)
    · exact Or.inl (Or.inl (Or.inl (Or.inl (Or.inl
        (char_eq_of_toNat_eq (h.trans (by decide : (' ').toNat = 32).symm))))))
    · exact Or.inl (Or.inl (Or.inl (Or.inl (Or.inr
        (char_eq_of_toNat_eq (h.trans (by decide : ('\t').toNat = 9).symm))))))
    · exact Or.inl (Or.inl (Or.inl (Or.inr
        (char_eq_of_toNat_eq (h.trans (by decide : ('\n').toNat = 10).symm)))))
    · exact Or.inl (Or.inl (Or.inr
        (char_eq_of_toNat_eq (h.trans (by decide : ('\r').toNat = 13).symm))))
    · exact Or.inl (Or.inr
        (char_eq_of_toNat_eq (h.trans (by decide : ('\x0b').toNat = 11).symm)))
    · exact Or.inr
        (char_eq_of_toNat_eq (h.trans (by decide : ('\x0c').toNat = 12).symm))

theorem isWS_toUpper (c : Char) : isWS c.toUpper = isWS c := by
  have hN := char_toUpper_toNat c
  have hx : ∀ d : Char, ((97 ≤ d.toNat ∧ d.toNat ≤ 122) ∨ (65 ≤ d.toNat ∧ d.toNat ≤ 90)) →
      isWS d = false := by
    intro d hd
    cases hw : isWS d
    · rfl
    · have := (isWS_iff d).mp hw
      omega
  by_cases h : 97 ≤ c.toNat ∧ c.toNat ≤ 122
  · rw [if_pos h] at hN
    rw [hx c (Or.inl h), hx c.toUpper (Or.inr (by omega))]
  · rw [if_neg h] at hN
    rw [char_eq_of_toNat_eq hN]

/-! ### String-level facts about trim, case mapping and emptiness -/

theorem trimChars_map_toUpper (cs : List Char) :
    trimChars (cs.map Char.toUpper) = (trimChars cs).map Char.toUpper := by
  have hws : (fun c => isWS c) ∘ Char.toUpper = fun c => isWS c := by
    funext c
    exact isWS_toUpper c
  simp only [trimChars, ← List.map_reverse, List.dropWhile_map, hws]

theorem jsTrim_jsToUpper (s : String) : jsTrim (jsToUpper s) = jsToUpper (jsTrim s) := by
  simp only [jsTrim, jsToUpper, trimChars_map_toUpper]

theorem jsToLower_jsToUpper (s : String) : jsToLower (jsToUpper s) = jsToLower s := by
  simp only [jsToLower, jsToUpper, List.map_map]
  congr 1
  apply List.map_congr_left
  intro c _
  exact char_toLower_toUpper c

theorem jsToLower_eq_empty_iff (s : String) : jsToLower s = "" ↔ s = "" := by
  constructor
  · intro h
    have : s.data.map Char.toLower = [] := congrArg String.data h
    have : s.data = [] := List.map_eq_nil_iff.mp this
    cases s
    simp_all
  · intro h
    subst h
    rfl

theorem jsToUpper_eq_empty_iff (s : String) : jsToUpper s = "" ↔ s = "" := by
  constructor
  · intro h
    have : s.data.map Char.toUpper = [] := congrArg String.data h
    have : s.data = [] := List.map_eq_nil_iff.mp this
    cases s
    simp_all
  · intro h
    subst h
    rfl

/-- The case-insensitive comparison key `handleCreateGroup` uses, and
its invariance under uppercasing the candidate name. -/
theorem dupKey_toUpper (name : String) :
    jsToLower (jsTrim (jsToUpper name)) = jsToLower (jsTrim name) := by
  rw [jsTrim_jsToUpper, jsToLower_jsToUpper]

theorem jsToUpper_append (a b : String) : jsToUpper (a ++ b) = jsToUpper a ++ jsToUpper b := by
  cases a with
  | mk as =>
    cases b with
    | mk bs =>
      show jsToUpper ⟨as ++ bs⟩ = String.mk ((as.map Char.toUpper) ++ (bs.map Char.toUpper))
      simp [jsToUpper]

/-- Round trip of a single Group record through its JSON object shape. -/
theorem decodeGroup_encodeGroup (g : Group) : decodeGroup (encodeGroup g) = some g := by
  cases g
  rfl

/-- Round trip of a single Note record through its JSON object shape,
including the `null` representation of an absent `groupId`. -/
theorem decodeNote_encodeNote (n : Note) : decodeNote (encodeNote n) = some n := by
  cases n with
  | mk i g c d t => cases g <;> rfl

/-- `handleCreateGroup` aborts with the duplicate alert whenever the
trimmed candidate is non-empty and some stored group has the same
lowercased name. -/
theorem createGroup_rejects_of_key_mem (s : AppState) (name color idv : String)
    (hne : jsTrim name ≠ "")
    (hg : ∃ g ∈ s.groups, jsToLower g.name = jsToLower (jsTrim name)) :
    handleCreateGroup s name color idv = (.duplicateNameError, s) := by
  obtain ⟨g, hmem, hkey⟩ := hg
  have hany : s.groups.any (fun g => jsToLower g.name == jsToLower (jsTrim name)) = true := by
    rw [List.any_eq_true]
    exact ⟨g, hmem, beq_iff_eq.mpr hkey⟩
  rw [handleCreateGroup, if_neg hne, if_pos hany]

/-- Claim C1: a candidate whose trimmed form matches an existing group
name case-insensitively makes `createGroup` fail with the duplicate
error and leave the state unchanged (for collection states whose group
names are non-empty, as every state produced by the store is); in
particular a `createGroup` call followed by `createGroup` on the
uppercased same name yields the duplicate error on the second call. -/
theorem claims_C1_duplicate_rejected :
    (∀ (s : AppState) (name color idv : String),
      (∀ g ∈ s.groups, g.name ≠ "") →
      (∃ g ∈ s.groups, jsToLower g.name = jsToLower (jsTrim name)) →
      handleCreateGroup s name color idv = (.duplicateNameError, s))
    ∧
    (∀ (s : AppState) (name c1 c2 id1 id2 : String),
      jsTrim name ≠ "" →
      (handleCreateGroup (handleCreateGroup s name c1 id1).2 (jsToUpper name) c2 id2).1
        = .duplicateNameError) := by
  constructor
  · rintro s name color idv hval ⟨g, hmem, hkey⟩
    have hne : jsTrim name ≠ "" := by
      intro h0
      rw [h0] at hkey
      have hempty : jsToLower g.name = "" := hkey.trans rfl
      exact hval g hmem ((jsToLower_eq_empty_iff g.name).mp hempty)
    exact createGroup_rejects_of_key_mem s name color idv hne ⟨g, hmem, hkey⟩
  · intro s name c1 c2 id1 id2 hne
    have hne2 : jsTrim (jsToUpper name) ≠ "" := by
      rw [jsTrim_jsToUpper]
      intro h0
      exact hne ((jsToUpper_eq_empty_iff (jsTrim name)).mp h0)
    by_cases hdup : s.groups.any (fun g => jsToLower g.name == jsToLower (jsTrim name)) = true
    · have h1 : handleCreateGroup s name c1 id1 = (.duplicateNameError, s) := by
        rw [handleCreateGroup, if_neg hne, if_pos hdup]
      obtain ⟨g, hmem, hbeq⟩ := List.any_eq_true.mp hdup
      rw [createGroup_rejects_of_key_mem (handleCreateGroup s name c1 id1).2
            (jsToUpper name) c2 id2 hne2
            ⟨g, by rw [h1]; exact hmem, by rw [dupKey_toUpper]; exact beq_iff_eq.mp hbeq⟩]
    · have h1 : handleCreateGroup s name c1 id1
          = (.created ⟨id1, jsTrim name, c1, getInitials name⟩,
             { s with groups := s.groups ++ [⟨id1, jsTrim name, c1, getInitials name⟩] }) := by
        rw [handleCreateGroup, if_neg hne, if_neg hdup]
      rw [createGroup_rejects_of_key_mem (handleCreateGroup s name c1 id1).2
            (jsToUpper name) c2 id2 hne2
            ⟨⟨id1, jsTrim name, c1, getInitials name⟩,
              by rw [h1]; exact List.mem_append_right _ (List.mem_singleton.mpr rfl),
              by rw [dupKey_toUpper]⟩]

/-- Witness for claim C1 at concrete inputs: a stored "Family" group
makes `createGroup "FAMILY"` fail, and creating "Family" then
`createGroup` on its uppercasing fails on the second call. -/
theorem claims_C1_witness :
    handleCreateGroup ⟨[⟨"1", "Family", "#B38BFA", "F"⟩], [], none⟩ "FAMILY" "#FF79F2" "2"
      = (.duplicateNameError, ⟨[⟨"1", "Family", "#B38BFA", "F"⟩], [], none⟩)
    ∧ (handleCreateGroup (handleCreateGroup ⟨[], [], none⟩ "Family" "#B38BFA" "1").2
        (jsToUpper "Family") "#FF79F2" "2").1 = .duplicateNameError := by
  constructor
  · exact claims_C1_duplicate_rejected.1 ⟨[⟨"1", "Family", "#B38BFA", "F"⟩], [], none⟩
      "FAMILY" "#FF79F2" "2" (by decide)
      ⟨⟨"1", "Family", "#B38BFA", "F"⟩, by decide, by decide⟩
  · exact claims_C1_duplicate_rejected.2 ⟨[], [], none⟩ "Family" "#B38BFA" "#FF79F2" "1" "2"
      (by decide)

/-- Claim C3: on a non-empty, non-duplicate trimmed name,
`handleCreateGroup` returns the new group (trimmed name, computed
initials, given id and color) and appends it at the end of the
collection, leaving all earlier groups unchanged; afterwards the
collection holds exactly one entry equal to the returned group, in last
position. -/
theorem claims_C3_create_success (s : AppState) (name color idv : String)
    (hne : jsTrim name ≠ "")
    (hdup : ∀ g ∈ s.groups, jsToLower g.name ≠ jsToLower (jsTrim name)) :
    handleCreateGroup s name color idv
      = (.created (Group.mk idv (jsTrim name) color (getInitials name)),
         { s with groups := s.groups ++ [Group.mk idv (jsTrim name) color (getInitials name)] })
    ∧ (s.groups ++ [Group.mk idv (jsTrim name) color (getInitials name)]).count
        (Group.mk idv (jsTrim name) color (getInitials name)) = 1
    ∧ (s.groups ++ [Group.mk idv (jsTrim name) color (getInitials name)]).getLast?
        = some (Group.mk idv (jsTrim name) color (getInitials name)) := by
  have hanyf : ¬ s.groups.any (fun g => jsToLower g.name == jsToLower (jsTrim name)) = true := by
    rw [List.any_eq_true]
    rintro ⟨g, hmem, hbeq⟩
    exact hdup g hmem (beq_iff_eq.mp hbeq)
  have hnotmem : Group.mk idv (jsTrim name) color (getInitials name) ∉ s.groups := by
    intro hmem
    exact hdup _ hmem rfl
  refine ⟨?_, ?_, ?_⟩
  · rw [handleCreateGroup, if_neg hne, if_neg hanyf]
  · rw [List.count_append, List.count_eq_zero.mpr hnotmem]
    simp
  · simp

/-- Witness for claim C3: creating "Family" in the empty state. -/
theorem claims_C3_witness :
    handleCreateGroup ⟨[], [], none⟩ "Family" "#B38BFA" "1"
      = (.created ⟨"1", "Family", "#B38BFA", "F"⟩,
         ⟨[⟨"1", "Family", "#B38BFA", "F"⟩], [], none⟩) := by
  have h := claims_C3_create_success ⟨[], [], none⟩ "Family" "#B38BFA" "1"
    (by decide) (by intro g hg; cases hg)
  rw [h.1]
  decide

/-- Claim C4: the initials are derived deterministically from the name:
the uppercased first letter of the only word, or the uppercased first
letters of the first two words; "Mom Dad" yields "MD" and "Work" yields
"W". -/
theorem claims_C4_initials :
    (∀ (name w : String), jsSplitWS (jsTrim name) = [w] →
      getInitials name = jsToUpper (charAt0 w))
    ∧ (∀ (name w0 w1 : String) (rest : List String),
        jsSplitWS (jsTrim name) = w0 :: w1 :: rest →
        getInitials name = jsToUpper (charAt0 w0) ++ jsToUpper (charAt0 w1))
    ∧ getInitials "Mom Dad" = "MD" ∧ getInitials "Work" = "W" := by
  refine ⟨?_, ?_, by decide, by decide⟩
  · intro name w h
    by_cases hname : name = ""
    · subst hname
      have h' : ([""] : List String) = [w] := h
      have hw : w = "" := by
        simpa using h'.symm
      subst hw
      rfl
    · rw [getInitials, if_neg hname, h]
  · intro name w0 w1 rest h
    have hname : name ≠ "" := by
      intro h0
      subst h0
      have h' : ([""] : List String) = w0 :: w1 :: rest := h
      simp at h'
    rw [getInitials, if_neg hname, h]
    exact jsToUpper_append (charAt0 w0) (charAt0 w1)

/-- Witness for claim C4 at "Work" and "Mom Dad". -/
theorem claims_C4_witness :
    getInitials "Work" = jsToUpper (charAt0 "Work")
    ∧ getInitials "Mom Dad" = jsToUpper (charAt0 "Mom") ++ jsToUpper (charAt0 "Dad") := by
  constructor
  · exact claims_C4_initials.1 "Work" "Work" (by decide)
  · exact claims_C4_initials.2.1 "Mom Dad" "Mom" "Dad" [] (by decide)

/-- Claim C5: on empty or whitespace-only content, `handleAddNote` is a
silent no-op: the whole state (both collections and the selection) is
returned unchanged. -/
theorem claims_C5_blank_noop (s : AppState) (content idv d t : String)
    (h : jsTrim content = "") :
    handleAddNote s content idv d t = s := by
  rw [handleAddNote, if_pos h]

/-- Witness for claim C5 on whitespace-only content. -/
theorem claims_C5_witness :
    handleAddNote ⟨[⟨"1", "Family", "#B38BFA", "F"⟩], [⟨"2", some "1", "x", "d", "t"⟩], some "1"⟩
        "   " "9" "d2" "t2"
      = ⟨[⟨"1", "Family", "#B38BFA", "F"⟩], [⟨"2", some "1", "x", "d", "t"⟩], some "1"⟩ :=
  claims_C5_blank_noop _ "   " "9" "d2" "t2" (by decide)

/-- Claim C6: the `currentNotes` projection returns exactly the notes
whose `groupId` field equals the selection, in the order of the global
note collection (a sublist, so never reordered), excluding every other
note; matching notes keep their multiplicity. -/
theorem claims_C6_projection (s : AppState) :
    List.Sublist (currentNotes s) s.notes
    ∧ (∀ n : Note, n ∈ currentNotes s ↔ (n ∈ s.notes ∧ n.groupId = s.selectedGroupId))
    ∧ (∀ n : Note, n.groupId = s.selectedGroupId →
        (currentNotes s).count n = s.notes.count n) := by
  refine ⟨List.filter_sublist _, ?_, ?_⟩
  · intro n
    simp [currentNotes, List.mem_filter]
  · intro n h
    rw [currentNotes, List.count_filter]
    simp [h]

/-- Claim C9: on content with non-empty trimmed form, `handleAddNote`
stores the content verbatim (no trimming: the appended record's content
field is the input string itself), leaves the group collection
untouched, and the stored record survives the JSON persistence shape
unchanged. -/
theorem claims_C9_verbatim_content (s : AppState) (content idv d t : String)
    (h : jsTrim content ≠ "") :
    (handleAddNote s content idv d t).notes
      = s.notes ++ [⟨idv, s.selectedGroupId, content, d, t⟩]
    ∧ (handleAddNote s content idv d t).groups = s.groups
    ∧ decodeNote (encodeNote ⟨idv, s.selectedGroupId, content, d, t⟩)
        = some ⟨idv, s.selectedGroupId, content, d, t⟩ := by
  refine ⟨?_, ?_, decodeNote_encodeNote _⟩
  · rw [handleAddNote, if_neg h]
  · rw [handleAddNote, if_neg h]

/-- Witness for claim C9: content with leading and trailing blanks is
stored exactly as typed. -/
theorem claims_C9_witness :
    (handleAddNote ⟨[], [], some "1"⟩ "  hi  " "9" "d" "t").notes
      = [⟨"9", some "1", "  hi  ", "d", "t"⟩]
    ∧ (handleAddNote ⟨[], [], some "1"⟩ "  hi  " "9" "d" "t").groups = [] := by
  have h := claims_C9_verbatim_content ⟨[], [], some "1"⟩ "  hi  " "9" "d" "t" (by decide)
  exact ⟨h.1, h.2.1⟩

/-- Claim C10: with no selected group, `handleAddNote` on non-blank
content does not reject: it appends a note whose `groupId` is `null`,
that note round-trips through the persisted JSON shape, and it matches
no group id. -/
theorem claims_C10_null_group_note (s : AppState) (content idv d t : String)
    (hsel : s.selectedGroupId = none) (h : jsTrim content ≠ "") :
    (handleAddNote s content idv d t).notes
      = s.notes ++ [⟨idv, none, content, d, t⟩]
    ∧ decodeNote (encodeNote ⟨idv, none, content, d, t⟩) = some ⟨idv, none, content, d, t⟩
    ∧ (∀ gid : String, (⟨idv, none, content, d, t⟩ : Note).groupId ≠ some gid) := by
  refine ⟨?_, decodeNote_encodeNote _, by intro gid hcontra; cases hcontra⟩
  rw [handleAddNote, if_neg h, hsel]

/-- Witness for claim C10 at a concrete no-selection state. -/
theorem claims_C10_witness :
    (handleAddNote ⟨[⟨"1", "Family", "#B38BFA", "F"⟩], [], none⟩ "hello" "9" "d" "t").notes
      = [⟨"9", none, "hello", "d", "t"⟩] :=
  (claims_C10_null_group_note ⟨[⟨"1", "Family", "#B38BFA", "F"⟩], [], none⟩ "hello" "9" "d" "t"
    rfl (by decide)).1

theorem hexVal_hexDigit (d : Nat) (h : d < 16) : hexVal (hexDigit d) = some d := by
  interval_cases d <;> rfl

theorem psb_nil (X : List Char) : parseStringBody ('"' :: X) = some ([], X) := rfl

theorem psb_step (c : Char) (X : List Char) :
    parseStringBody (c :: X)
      = if c == '"' then some ([], X)
        else if c == '\\' then parseEscape X
        else (parseStringBody X).map (fun r => (c :: r.1, r.2)) := rfl

theorem pe_u (h1 h2 h3 h4 : Char) (X : List Char) :
    parseEscape ('u' :: h1 :: h2 :: h3 :: h4 :: X)
      = match hexVal h1, hexVal h2, hexVal h3, hexVal h4 with
        | some a, some b, some c3, some d =>
          (parseStringBody X).map
            (fun r => (Char.ofNat (((a * 16 + b) * 16 + c3) * 16 + d) :: r.1, r.2))
        | _, _, _, _ => none := rfl

theorem parseStringBody_escape : ∀ (cs rest : List Char),
    parseStringBody (escapeChars cs ++ '"' :: rest) = some (cs, rest) := by
  intro cs
  induction cs with
  | nil => intro rest; rfl
  | cons c cs ih =>
    intro rest
    rw [escapeChars, List.append_assoc]
    by_cases h1 : c = '"'
    · subst h1
      show parseStringBody ('\\' :: '"' :: (escapeChars cs ++ '"' :: rest)) = _
      rw [psb_step]
      norm_num
      show (parseStringBody (escapeChars cs ++ '"' :: rest)).map (fun r => ('"' :: r.1, r.2)) = _
      rw [ih]
      rfl
    · by_cases h2 : c = '\\'
      · subst h2
        show parseStringBody ('\\' :: '\\' :: (escapeChars cs ++ '"' :: rest)) = _
        rw [psb_step]
        norm_num
        show (parseStringBody (escapeChars cs ++ '"' :: rest)).map (fun r => ('\\' :: r.1, r.2)) = _
        rw [ih]
        rfl
      · by_cases h3 : c = '\x08'
        · subst h3
          show parseStringBody ('\\' :: 'b' :: (escapeChars cs ++ '"' :: rest)) = _
          rw [psb_step]
          norm_num
          show (parseStringBody (escapeChars cs ++ '"' :: rest)).map (fun r => ('\x08' :: r.1, r.2)) = _
          rw [ih]
          rfl
        · by_cases h4 : c = '\t'
          · subst h4
            show parseStringBody ('\\' :: 't' :: (escapeChars cs ++ '"' :: rest)) = _
            rw [psb_step]
            norm_num
            show (parseStringBody (escapeChars cs ++ '"' :: rest)).map (fun r => ('\t' :: r.1, r.2)) = _
            rw [ih]
            rfl
          · by_cases h5 : c = '\n'
            · subst h5
              show parseStringBody ('\\' :: 'n' :: (escapeChars cs ++ '"' :: rest)) = _
              rw [psb_step]
              norm_num
              show (parseStringBody (escapeChars cs ++ '"' :: rest)).map (fun r => ('\n' :: r.1, r.2)) = _
              rw [ih]
              rfl
            · by_cases h6 : c = '\x0c'
              · subst h6
                show parseStringBody ('\\' :: 'f' :: (escapeChars cs ++ '"' :: rest)) = _
                rw [psb_step]
                norm_num
                show (parseStringBody (escapeChars cs ++ '"' :: rest)).map (fun r => ('\x0c' :: r.1, r.2)) = _
                rw [ih]
                rfl
              · by_cases h7 : c = '\r'
                · subst h7
                  show parseStringBody ('\\' :: 'r' :: (escapeChars cs ++ '"' :: rest)) = _
                  rw [psb_step]
                  norm_num
                  show (parseStringBody (escapeChars cs ++ '"' :: rest)).map (fun r => ('\r' :: r.1, r.2)) = _
                  rw [ih]
                  rfl
                · by_cases h8 : c.toNat < 32
                  · have hesc : escapeChar c
                        = ['\\', 'u', '0', '0', hexDigit (c.toNat / 16), hexDigit (c.toNat % 16)] := by
                      simp [escapeChar, h1, h2, h3, h4, h5, h6, h7, h8]
                    rw [hesc]
                    show parseStringBody ('\\' :: 'u' :: '0' :: '0' :: hexDigit (c.toNat / 16)
                      :: hexDigit (c.toNat % 16) :: (escapeChars cs ++ '"' :: rest)) = _
                    rw [psb_step]
                    norm_num
                    show parseEscape ('u' :: '0' :: '0' :: hexDigit (c.toNat / 16)
                      :: hexDigit (c.toNat % 16) :: (escapeChars cs ++ '"' :: rest)) = _
                    rw [pe_u]
                    have hhi : hexVal (hexDigit (c.toNat / 16)) = some (c.toNat / 16) :=
                      hexVal_hexDigit _ (by omega)
                    have hlo : hexVal (hexDigit (c.toNat % 16)) = some (c.toNat % 16) :=
                      hexVal_hexDigit _ (by omega)
                    rw [hhi, hlo]
                    show (parseStringBody (escapeChars cs ++ '"' :: rest)).map
                      (fun r => (Char.ofNat (((0 * 16 + 0) * 16 + c.toNat / 16) * 16 + c.toNat % 16)
                        :: r.1, r.2)) = _
                    have hval : ((0 * 16 + 0) * 16 + c.toNat / 16) * 16 + c.toNat % 16 = c.toNat := by
                      omega
                    rw [hval, Char.ofNat_toNat, ih]
                    rfl
                  · have hesc : escapeChar c = [c] := by
                      simp [escapeChar, h1, h2, h3, h4, h5, h6, h7, h8]
                    rw [hesc]
                    have b1 : (c == '"') = false := by simp [h1]
                    have b2 : (c == '\\') = false := by simp [h2]
                    show parseStringBody (c :: (escapeChars cs ++ '"' :: rest)) = _
                    rw [psb_step, b1, b2]
                    norm_num
                    rw [ih]



theorem needV_arr_cons (e : JVal) (es : List JVal) :
    needV (.arr (e :: es)) = 1 + needList (e :: es) := rfl

theorem needV_obj_cons (m : String × JVal) (ms : List (String × JVal)) :
    needV (.obj (m :: ms)) = 1 + needMList (m :: ms) := rfl

theorem needList_cons (e : JVal) (es : List JVal) :
    needList (e :: es) = 1 + max (needV e) (needList es) := rfl

theorem needMList_cons (k : String) (v : JVal) (ms : List (String × JVal)) :
    needMList ((k, v) :: ms) = 1 + max (needV v) (needMList ms) := rfl

theorem needV_pos (v : JVal) : 1 ≤ needV v := by
  cases v with
  | null => exact Nat.le_refl 1
  | str s => exact Nat.le_refl 1
  | arr es => cases es with
    | nil => exact Nat.le_refl 1
    | cons e es => rw [needV_arr_cons]; omega
  | obj ms => cases ms with
    | nil => exact Nat.le_refl 1
    | cons m ms => rw [needV_obj_cons]; omega

theorem render_null : render .null = ['n', 'u', 'l', 'l'] := rfl

theorem render_str (s : String) : render (.str s) = '"' :: (escapeChars s.data ++ ['"']) := rfl

theorem render_arr_nil : render (.arr []) = ['[', ']'] := rfl

theorem render_arr_cons (e : JVal) (es : List JVal) :
    render (.arr (e :: es)) = '[' :: (render e ++ (renderElemsTail es ++ [']'])) := rfl

theorem render_obj_nil : render (.obj []) = ['\x7b', '\x7d'] := rfl

theorem render_obj_cons (k : String) (v : JVal) (ms : List (String × JVal)) :
    render (.obj ((k, v) :: ms))
      = '\x7b' :: (renderString k ++ (':' :: (render v ++ (renderMembersTail ms ++ ['\x7d'])))) := rfl

theorem renderElemsTail_nil : renderElemsTail [] = [] := rfl

theorem renderElemsTail_cons (e : JVal) (es : List JVal) :
    renderElemsTail (e :: es) = ',' :: (render e ++ renderElemsTail es) := rfl

theorem renderMembersTail_nil : renderMembersTail [] = [] := rfl

theorem renderMembersTail_cons (k : String) (v : JVal) (ms : List (String × JVal)) :
    renderMembersTail ((k, v) :: ms)
      = ',' :: (renderString k ++ (':' :: (render v ++ renderMembersTail ms))) := rfl

theorem render_head (v : JVal) : ∃ cs0,
    render v = 'n' :: cs0 ∨ render v = '"' :: cs0 ∨ render v = '[' :: cs0 ∨
      render v = '\x7b' :: cs0 := by
  cases v with
  | null => exact ⟨['u', 'l', 'l'], Or.inl rfl⟩
  | str s => exact ⟨escapeChars s.data ++ ['"'], Or.inr (Or.inl rfl)⟩
  | arr es =>
    cases es with
    | nil => exact ⟨[']'], Or.inr (Or.inr (Or.inl rfl))⟩
    | cons e es =>
      exact ⟨render e ++ (renderElemsTail es ++ [']']), Or.inr (Or.inr (Or.inl rfl))⟩
  | obj ms =>
    cases ms with
    | nil => exact ⟨['\x7d'], Or.inr (Or.inr (Or.inr rfl))⟩
    | cons m ms =>
      cases m with
      | mk k v2 =>
        exact ⟨renderString k ++ (':' :: (render v2 ++ (renderMembersTail ms ++ ['\x7d']))),
          Or.inr (Or.inr (Or.inr rfl))⟩

theorem pv_null (f : Nat) (X : List Char) :
    parseVal (f + 1) ('n' :: 'u' :: 'l' :: 'l' :: X) = some (.null, X) := rfl

theorem pv_quote (f : Nat) (X : List Char) :
    parseVal (f + 1) ('"' :: X)
      = match parseStringBody X with
        | some (body, r) => some (.str ⟨body⟩, r)
        | none => none := rfl

theorem pv_arr_nil (f : Nat) (X : List Char) :
    parseVal (f + 1) ('[' :: ']' :: X) = some (.arr [], X) := rfl

theorem pv_obj_nil (f : Nat) (X : List Char) :
    parseVal (f + 1) ('\x7b' :: '\x7d' :: X) = some (.obj [], X) := rfl

theorem parseVal_arr_step (f : Nat) (e : JVal) (tail : List Char) :
    parseVal (f + 1) ('[' :: (render e ++ tail))
      = match parseElems f (render e ++ tail) with
        | some (es2, r) => some (JVal.arr es2, r)
        | none => none := by
  obtain ⟨cs0, hc⟩ := render_head e
  rcases hc with h | h | h | h <;> rw [h] <;> rfl

theorem parseVal_obj_step (f : Nat) (k : String) (tail : List Char) :
    parseVal (f + 1) ('\x7b' :: (renderString k ++ tail))
      = match parseMembers f (renderString k ++ tail) with
        | some (ms, r) => some (JVal.obj ms, r)
        | none => none := rfl

theorem parseElems_step (f : Nat) (cs : List Char) :
    parseElems (f + 1) cs
      = match parseVal f cs with
        | some (v, ',' :: r) =>
          match parseElems f r with
          | some (es, r2) => some (v :: es, r2)
          | none => none
        | some (v, ']' :: r) => some ([v], r)
        | _ => none := rfl

theorem parseMembers_quote (f : Nat) (X : List Char) :
    parseMembers (f + 1) ('"' :: X)
      = match parseStringBody X with
        | some (k, ':' :: r1) =>
          match parseVal f r1 with
          | some (v, ',' :: r2) =>
            match parseMembers f r2 with
            | some (ms, r3) => some ((⟨k⟩, v) :: ms, r3)
            | none => none
          | some (v, '\x7d' :: r2) => some ([(⟨k⟩, v)], r2)
          | _ => none
        | _ => none := rfl



theorem parse_render (fuel : Nat) :
    (∀ (v : JVal) (rest : List Char), needV v ≤ fuel →
      parseVal fuel (render v ++ rest) = some (v, rest))
    ∧ (∀ (e : JVal) (es : List JVal) (rest : List Char), needList (e :: es) ≤ fuel →
      parseElems fuel (render e ++ (renderElemsTail es ++ (']' :: rest))) = some (e :: es, rest))
    ∧ (∀ (k : String) (v : JVal) (ms : List (String × JVal)) (rest : List Char),
        needMList ((k, v) :: ms) ≤ fuel →
      parseMembers fuel
          (renderString k ++ (':' :: (render v ++ (renderMembersTail ms ++ ('\x7d' :: rest)))))
        = some ((k, v) :: ms, rest)) := by
  induction fuel with
  | zero =>
    refine ⟨?_, ?_, ?_⟩
    · intro v rest hv
      exact absurd hv (by have := needV_pos v; omega)
    · intro e es rest h
      rw [needList_cons] at h
      exact absurd h (by omega)
    · intro k v ms rest h
      rw [needMList_cons] at h
      exact absurd h (by omega)
  | succ f ih =>
    obtain ⟨ihV, ihE, ihM⟩ := ih
    refine ⟨?_, ?_, ?_⟩
    · intro v rest hv
      cases v with
      | null => exact pv_null f rest
      | str s =>
        cases s with
        | mk sd =>
          have hshape : render (.str ⟨sd⟩) ++ rest = '"' :: (escapeChars sd ++ '"' :: rest) := by
            rw [render_str]
            simp [List.append_assoc]
          rw [hshape, pv_quote, parseStringBody_escape]
      | arr es =>
        cases es with
        | nil => exact pv_arr_nil f rest
        | cons e es =>
          rw [needV_arr_cons] at hv
          have hne : needList (e :: es) ≤ f := by omega
          have hshape : render (.arr (e :: es)) ++ rest
              = '[' :: (render e ++ (renderElemsTail es ++ (']' :: rest))) := by
            rw [render_arr_cons]
            simp [List.append_assoc]
          rw [hshape, parseVal_arr_step, ihE e es rest hne]
      | obj ms =>
        cases ms with
        | nil => exact pv_obj_nil f rest
        | cons m ms =>
          cases m with
          | mk k v2 =>
            rw [needV_obj_cons] at hv
            have hne : needMList ((k, v2) :: ms) ≤ f := by omega
            have hshape : render (.obj ((k, v2) :: ms)) ++ rest
                = '\x7b' :: (renderString k
                    ++ (':' :: (render v2 ++ (renderMembersTail ms ++ ('\x7d' :: rest))))) := by
              rw [render_obj_cons]
              simp [List.append_assoc]
            rw [hshape, parseVal_obj_step, ihM k v2 ms rest hne]
    · intro e es rest hE
      rw [needList_cons] at hE
      have hVe : needV e ≤ f := by
        have := Nat.le_max_left (needV e) (needList es)
        omega
      rw [parseElems_step, ihV e _ hVe]
      cases es with
      | nil => simp [renderElemsTail_nil]
      | cons e2 es2 =>
        have hE2 : needList (e2 :: es2) ≤ f := by
          have := Nat.le_max_right (needV e) (needList (e2 :: es2))
          omega
        have hshape : renderElemsTail (e2 :: es2) ++ (']' :: rest)
            = ',' :: (render e2 ++ (renderElemsTail es2 ++ (']' :: rest))) := by
          rw [renderElemsTail_cons]
          simp [List.append_assoc]
        rw [hshape]
        have h2 := ihE e2 es2 rest hE2
        simp only [h2]
    · intro k v ms rest hM
      rw [needMList_cons] at hM
      have hVv : needV v ≤ f := by
        have := Nat.le_max_left (needV v) (needMList ms)
        omega
      cases k with
      | mk kd =>
        have hshape : renderString ⟨kd⟩ ++ (':' :: (render v ++ (renderMembersTail ms ++ ('\x7d' :: rest))))
            = '"' :: (escapeChars kd ++ '"' :: (':' :: (render v ++ (renderMembersTail ms ++ ('\x7d' :: rest))))) := by
          rw [renderString]
          simp [List.append_assoc]
        rw [hshape, parseMembers_quote, parseStringBody_escape]
        have hv2 := ihV v (renderMembersTail ms ++ ('\x7d' :: rest)) hVv
        simp only [hv2]
        cases ms with
        | nil => simp [renderMembersTail_nil]
        | cons m2 ms2 =>
          cases m2 with
          | mk k2 v2 =>
            have hM2 : needMList ((k2, v2) :: ms2) ≤ f := by
              have := Nat.le_max_right (needV v) (needMList ((k2, v2) :: ms2))
              omega
            have hshape2 : renderMembersTail ((k2, v2) :: ms2) ++ ('\x7d' :: rest)
                = ',' :: (renderString k2 ++ (':' :: (render v2 ++ (renderMembersTail ms2 ++ ('\x7d' :: rest))))) := by
              rw [renderMembersTail_cons]
              simp [List.append_assoc]
            rw [hshape2]
            have h3 := ihM k2 v2 ms2 rest hM2
            simp only [h3]



theorem renderString_len_ge (s : String) : 2 ≤ (renderString s).length := by
  rw [renderString]
  simp

theorem render_str_len_ge (s : String) : 2 ≤ (render (.str s)).length := by
  rw [render_str]
  simp

theorem needV_encodeGroup (g : Group) : needV (encodeGroup g) = 6 := rfl

theorem needV_encodeNote (n : Note) : needV (encodeNote n) = 7 := by
  cases n with
  | mk i g c d t => cases g <;> rfl

theorem needList_encodeGroups_le (gs : List Group) :
    needList (gs.map encodeGroup) ≤ 6 + gs.length := by
  induction gs with
  | nil => simp [needList]
  | cons g t ih =>
    rw [List.map_cons, needList_cons, needV_encodeGroup]
    have h := Nat.max_le.mpr (⟨by omega, by omega⟩ :
      6 ≤ 6 + t.length + 1 ∧ needList (t.map encodeGroup) ≤ 6 + t.length + 1)
    simp only [List.length_cons]
    omega

theorem needList_encodeNotes_le (ns : List Note) :
    needList (ns.map encodeNote) ≤ 7 + ns.length := by
  induction ns with
  | nil => simp [needList]
  | cons n t ih =>
    rw [List.map_cons, needList_cons, needV_encodeNote]
    have h := Nat.max_le.mpr (⟨by omega, by omega⟩ :
      7 ≤ 7 + t.length + 1 ∧ needList (t.map encodeNote) ≤ 7 + t.length + 1)
    simp only [List.length_cons]
    omega

theorem rET_len_ge (es : List JVal) : es.length ≤ (renderElemsTail es).length := by
  induction es with
  | nil => simp [renderElemsTail_nil]
  | cons e t ih =>
    rw [renderElemsTail_cons]
    simp only [List.length_cons, List.length_append]
    omega

theorem rlen_encodeGroup_ge (g : Group) : 7 ≤ (render (encodeGroup g)).length := by
  rw [show encodeGroup g
      = .obj (("id", .str g.id)
          :: [("name", .str g.name), ("color", .str g.color), ("initials", .str g.initials)])
    from rfl]
  rw [render_obj_cons]
  have h1 := renderString_len_ge "id"
  have h2 := render_str_len_ge g.id
  simp only [List.length_cons, List.length_append]
  omega

theorem rlen_encodeNote_ge (n : Note) : 7 ≤ (render (encodeNote n)).length := by
  rw [show encodeNote n
      = .obj (("id", .str n.id)
          :: [("groupId", match n.groupId with | some gid => .str gid | none => .null),
              ("content", .str n.content), ("date", .str n.date), ("time", .str n.time)])
    from rfl]
  rw [render_obj_cons]
  have h1 := renderString_len_ge "id"
  have h2 := render_str_len_ge n.id
  simp only [List.length_cons, List.length_append]
  omega

theorem fuel_groups (gs : List Group) :
    needV (encodeGroups gs) ≤ (render (encodeGroups gs)).length + 1 := by
  cases gs with
  | nil => decide
  | cons g t =>
    have h1 := needList_encodeGroups_le (g :: t)
    rw [List.map_cons] at h1
    have h2 := rET_len_ge (t.map encodeGroup)
    have h3 := rlen_encodeGroup_ge g
    simp only [List.length_cons, List.length_map] at *
    rw [encodeGroups, List.map_cons, needV_arr_cons, render_arr_cons]
    simp only [List.length_cons, List.length_append, List.length_map]
    omega

theorem fuel_notes (ns : List Note) :
    needV (encodeNotes ns) ≤ (render (encodeNotes ns)).length + 1 := by
  cases ns with
  | nil => decide
  | cons n t =>
    have h1 := needList_encodeNotes_le (n :: t)
    rw [List.map_cons] at h1
    have h2 := rET_len_ge (t.map encodeNote)
    have h3 := rlen_encodeNote_ge n
    simp only [List.length_cons, List.length_map] at *
    rw [encodeNotes, List.map_cons, needV_arr_cons, render_arr_cons]
    simp only [List.length_cons, List.length_append, List.length_map]
    omega

theorem decode_loop_groups : ∀ (t : List Group) (acc : List Group),
    List.mapM.loop decodeGroup (t.map encodeGroup) acc = some (acc.reverse ++ t) := by
  intro t
  induction t with
  | nil => intro acc; simp [List.mapM.loop]
  | cons g t ih =>
    intro acc
    simp [List.mapM.loop, decodeGroup_encodeGroup, ih]

theorem decode_loop_notes : ∀ (t : List Note) (acc : List Note),
    List.mapM.loop decodeNote (t.map encodeNote) acc = some (acc.reverse ++ t) := by
  intro t
  induction t with
  | nil => intro acc; simp [List.mapM.loop]
  | cons n t ih =>
    intro acc
    simp [List.mapM.loop, decodeNote_encodeNote, ih]

theorem decodeGroups_encodeGroups (gs : List Group) :
    decodeGroups (encodeGroups gs) = some gs := by
  show List.mapM.loop decodeGroup (gs.map encodeGroup) [] = some gs
  simpa using decode_loop_groups gs []

theorem decodeNotes_encodeNotes (ns : List Note) :
    decodeNotes (encodeNotes ns) = some ns := by
  show List.mapM.loop decodeNote (ns.map encodeNote) [] = some ns
  simpa using decode_loop_notes ns []

theorem loadGroups_saveGroups (gs : List Group) :
    loadGroups (some (saveGroups gs)) = some gs := by
  have hrt := (parse_render ((render (encodeGroups gs)).length + 1)).1
    (encodeGroups gs) [] (fuel_groups gs)
  rw [List.append_nil] at hrt
  show (JSONparse (stringify (encodeGroups gs))).bind decodeGroups = some gs
  rw [JSONparse]
  rw [show (stringify (encodeGroups gs)).data = render (encodeGroups gs) from rfl]
  rw [hrt]
  simp [decodeGroups_encodeGroups]

theorem loadNotes_saveNotes (ns : List Note) :
    loadNotes (some (saveNotes ns)) = some ns := by
  have hrt := (parse_render ((render (encodeNotes ns)).length + 1)).1
    (encodeNotes ns) [] (fuel_notes ns)
  rw [List.append_nil] at hrt
  show (JSONparse (stringify (encodeNotes ns))).bind decodeNotes = some ns
  rw [JSONparse]
  rw [show (stringify (encodeNotes ns)).data = render (encodeNotes ns) from rfl]
  rw [hrt]
  simp [decodeNotes_encodeNotes]

/-- Claim C2: serializing both collections through the JSON
write-through (the strings stored under `"pocketGroups"` and
`"pocketNotes"`) and reloading them the way the startup initializers do
yields collections element-wise equal to the originals, every field and
the order included. -/
theorem claims_C2_roundtrip (gs : List Group) (ns : List Note) :
    initialGroups ⟨some (saveGroups gs), some (saveNotes ns)⟩ = some gs
    ∧ initialNotes ⟨some (saveGroups gs), some (saveNotes ns)⟩ = some ns :=
  ⟨loadGroups_saveGroups gs, loadNotes_saveNotes ns⟩

/-- Claim C8: at startup each slot is loaded once: an absent slot
initializes the collection to empty, a present slot is deserialized
into the corresponding collection. -/
theorem claims_C8_startup_load (st : StorageState) :
    (st.pocketGroups = none → initialGroups st = some [])
    ∧ (st.pocketNotes = none → initialNotes st = some [])
    ∧ (∀ gs, st.pocketGroups = some (saveGroups gs) → initialGroups st = some gs)
    ∧ (∀ ns, st.pocketNotes = some (saveNotes ns) → initialNotes st = some ns) := by
  refine ⟨?_, ?_, ?_, ?_⟩
  · intro h
    rw [initialGroups, h]
    rfl
  · intro h
    rw [initialNotes, h]
    rfl
  · intro gs h
    rw [initialGroups, h]
    exact loadGroups_saveGroups gs
  · intro ns h
    rw [initialNotes, h]
    exact loadNotes_saveNotes ns

/-- Witness for claim C8 at concrete storage states: both slots absent,
then each slot holding a serialized one-element collection. -/
theorem claims_C8_witness :
    initialGroups ⟨none, none⟩ = some []
    ∧ initialNotes ⟨none, none⟩ = some []
    ∧ initialGroups ⟨some (saveGroups [⟨"1", "Family", "#B38BFA", "F"⟩]), none⟩
        = some [⟨"1", "Family", "#B38BFA", "F"⟩]
    ∧ initialNotes ⟨none, some (saveNotes [⟨"2", none, " hi ", "d", "t"⟩])⟩
        = some [⟨"2", none, " hi ", "d", "t"⟩] :=
  ⟨(claims_C8_startup_load ⟨none, none⟩).1 rfl,
   (claims_C8_startup_load ⟨none, none⟩).2.1 rfl,
   (claims_C8_startup_load _).2.2.1 [⟨"1", "Family", "#B38BFA", "F"⟩] rfl,
   (claims_C8_startup_load _).2.2.2 [⟨"2", none, " hi ", "d", "t"⟩] rfl⟩

/-- Claim C7 counterexample: two id-generator calls that observe the
same clock millisecond issue the same string, so the issued ids are not
unique. -/
theorem claims_C7_counterexample :
    issuedIds [1700000000000, 1700000000000] = ["1700000000000", "1700000000000"]
    ∧ ¬ (issuedIds [1700000000000, 1700000000000]).Nodup := by
  constructor
  · rfl
  · decide

/-- Claim C7 amended: each id is the decimal rendering of the observed
wall-clock instant, and the issued ids are pairwise distinct provided
the observed instants are pairwise distinct. -/
theorem claims_C7_amended (ts : List Nat) (h : ts.Nodup) : (issuedIds ts).Nodup :=
  List.Nodup.map newId_injective h

/-- Witness for the amended claim C7 on three distinct instants. -/
theorem claims_C7_witness :
    (issuedIds [1700000000000, 1700000000001, 1700000000002]).Nodup :=
  claims_C7_amended [1700000000000, 1700000000001, 1700000000002] (by decide)

example : getInitials "Mom Dad" = "MD" := by decide
example : getInitials "Work" = "W" := by decide
example : getInitials "  pocket   notes  " = "PN" := by decide
example : getInitials " " = "" := by decide
example : jsTrim "  a b  " = "a b" := by decide
example : jsSplitWS "" = [""] := by decide
example : jsSplitWS " a b " = ["", "a", "b", ""] := by decide

end PocketNotes
